import Mathlib

/-
Verification of the derivative-generation pipeline of the video-conversion
repository.  The Python sources `convert_videos.py` and `add_copyright_stamp.py`
are shallowly embedded: the filesystem is an association list from paths to
file sizes, the external tool is an oracle (`RunBehavior` / `StampRun`) giving
the observed exit code, diagnostic stream and disk state, and every function of
the source becomes an executable Lean definition with the same name.
-/

/-- One catalog row, as consumed by `process_single_file`:
`Directory Path`, `Filename`, `Video Codec`, `Field Order`. -/
structure Row where
  directoryPath : String
  filename : String
  videoCodec : String
  fieldOrder : String
deriving DecidableEq, Repr

/-- The filesystem model: an association list mapping a path to the size of
the file stored there.  Directories are not modelled (`os.makedirs` has no
observable effect on the claims). -/
abbrev FS : Type := List (String × Nat)

/-- `os.path.exists` / reading a file's size: first matching entry wins. -/
def fsLookup : FS → String → Option Nat
  | [], _ => none
  | (q, v) :: t, p => if q = p then some v else fsLookup t p

/-- `os.path.exists`. -/
def fsExists (fs : FS) (p : String) : Bool := (fsLookup fs p).isSome

/-- `os.path.getsize` (0 when absent; only read after an existence check). -/
def fsSize (fs : FS) (p : String) : Nat := (fsLookup fs p).getD 0

/-- `os.remove`: drop every entry stored at the path. -/
def fsRemove (fs : FS) (p : String) : FS := fs.filter (fun e => e.1 != p)

/-- Write a file of size `v` at path `p` (used to model `os.replace`). -/
def fsSet (fs : FS) (p : String) (v : Nat) : FS := (p, v) :: fsRemove fs p

/-- `os.replace src dst`: move the file at `src` onto `dst`.  When `src` is
absent the real call raises; the claims never reach that case, and the model
then leaves the filesystem unchanged. -/
def osReplace (fs : FS) (src dst : String) : FS :=
  match fsLookup fs src with
  | some v => fsSet (fsRemove fs src) dst v
  | none => fs

/-- Contiguous-sublist test on character lists (Python's `needle in hay`). -/
def containsSub (n : List Char) : List Char → Bool
  | [] => n.isEmpty
  | c :: t => n.isPrefixOf (c :: t) || containsSub n t

/-- Python's substring test `needle in hay` on strings. -/
def strContains (hay needle : String) : Bool := containsSub needle.toList hay.toList

/-- Python's slice `s[-n:]`: the last `n` characters (all of `s` when shorter). -/
def strTail (s : String) (n : Nat) : String :=
  String.mk (s.toList.drop (s.toList.length - n))

/-- The `"-" * 40` separator appended to the FFmpeg error-log message. -/
def dashSep : String := String.mk (List.replicate 40 '-')

/-- Index of the last occurrence of `c` (Python's `str.rfind`), `none` when
absent. -/
def rlastIdx (c : Char) : List Char → Option Nat
  | [] => none
  | a :: t =>
    match rlastIdx c t with
    | some i => some (i + 1)
    | none => if a = c then some 0 else none

/-- Python's `str.rstrip(c)` restricted to a single character. -/
def stripTrailing (c : Char) (cs : List Char) : List Char :=
  (cs.reverse.dropWhile (fun a => a == c)).reverse

/-- Head normalization of POSIX `os.path.split`: trailing slashes are
stripped unless the head is empty or consists only of slashes. -/
def splitHead (head : List Char) : List Char :=
  if head.isEmpty || head.all (fun a => a == '/') then head
  else stripTrailing '/' head

/-- POSIX `os.path.split`: cut after the last `/`; the head is normalized by
`splitHead`. -/
def splitPath (p : String) : String × String :=
  match rlastIdx '/' p.toList with
  | none => ("", p)
  | some i =>
      (String.mk (splitHead (p.toList.take (i + 1))), String.mk (p.toList.drop (i + 1)))

/-- POSIX `os.path.basename`. -/
def basename (p : String) : String := (splitPath p).2

/-- POSIX `os.path.join` for two components: an absolute second component
wins; a slash is inserted unless the first component is empty or already ends
in one. -/
def pathJoin (a b : String) : String :=
  if b.toList.head? = some '/' then b
  else if a = "" ∨ a.toList.getLast? = some '/' then a ++ b
  else a ++ "/" ++ b

/-- What `subprocess.run` did for one invocation: either it raised an
exception carrying message `msg`, or the external tool completed with the
given exit code and captured diagnostic stream. -/
inductive RunBehavior where
  | raises (msg : String)
  | completes (returncode : Int) (stderr : String)
deriving DecidableEq, Repr

/-- Result of `run_ffmpeg_safe`: the returned boolean, the `log_error`
messages it emitted in order, and the filesystem it leaves behind. -/
structure SafeOutcome where
  success : Bool
  logs : List String
  fs : FS
deriving DecidableEq, Repr

/-- `run_ffmpeg_safe` of `convert_videos.py`.  `beh` is what
`subprocess.run` did; `fs` is the disk state at the moment the function
inspects it (the external tool may have created the output file there). -/
def run_ffmpeg_safe (beh : RunBehavior) (fs : FS) (output_file : String) : SafeOutcome :=
  match beh with
  | .raises msg =>
      { success := false
        logs := ["\n🔥 [EXCEPTION] Python script error on " ++ output_file ++ ": " ++ msg]
        fs := fs }
  | .completes returncode stderr =>
      if returncode ≠ 0 then
        let error_snippet := strTail stderr 600
        let crashLogs := ["\n❌ [CRASH] Failed to convert: " ++ basename output_file,
                          "   Command Exit Code: " ++ toString returncode,
                          "   FFmpeg Error Log:\n" ++ error_snippet ++ "\n" ++ dashSep]
        if fsExists fs output_file then
          { success := false
            logs := crashLogs ++ ["   🗑️  Deleted broken file: " ++ output_file]
            fs := fsRemove fs output_file }
        else
          { success := false, logs := crashLogs, fs := fs }
      else
        if fsExists fs output_file then
          if fsSize fs output_file = 0 then
            { success := false
              logs := ["\n⚠️ [EMPTY] FFmpeg finished but file is 0 bytes: " ++ basename output_file,
                       "   🗑️  Deleted empty file."]
              fs := fsRemove fs output_file }
          else
            { success := true, logs := [], fs := fs }
        else
          { success := false
            logs := ["\n❓ [MISSING] FFmpeg finished but output file not found: " ++ output_file]
            fs := fs }

example : (run_ffmpeg_safe (.completes 1 "boom") [("o", 3)] "o").success = false := by decide

example : (run_ffmpeg_safe (.completes 0 "") [("o", 3)] "o").success = true := by decide

example : (run_ffmpeg_safe (.completes 0 "") [("o", 0)] "o").fs = [] := by decide

example : strContains "x dvvideo y" "dvvideo" = true := by decide

example : strContains "prore" "prores" = false := by decide

example : splitPath "a//b" = ("a", "b") := by decide

example : pathJoin "a" "temp_b" = "a/temp_b" := by decide

example : basename "dir/sub/f.mov" = "f.mov" := by decide

/-- Python's `os.path.splitext(s)[0]`: the name with its extension removed;
a candidate dot counts only when some non-dot character precedes it. -/
def splitextBase (s : String) : String :=
  match rlastIdx '.' s.toList with
  | none => s
  | some i =>
      if (s.toList.take i).all (fun c => c == '.') then s
      else String.mk (s.toList.take i)

example : splitextBase "clip.mov" = "clip" := by decide

example : splitextBase ".bashrc" = ".bashrc" := by decide

example : splitextBase "a.tar.gz" = "a.tar" := by decide

/-- `COPYRIGHT_HOLDER` of the configuration block. -/
def COPYRIGHT_HOLDER : String := "Copyright © Shechen Archives. All Rights Reserved."

/-- `PROJECT_NAME` of the configuration block. -/
def PROJECT_NAME : String := "Khyentse Önang"

/-- `DESCRIPTION` of the configuration block. -/
def DESCRIPTION : String := "Preserved by the Khyentse Önang Project. Original media from Shechen Archives."

/-- `metadata_flags` of `process_single_file`: added to every command. -/
def metadata_flags : List String :=
  ["-metadata", "copyright=" ++ COPYRIGHT_HOLDER,
   "-metadata", "artist=" ++ PROJECT_NAME,
   "-metadata", "comment=" ++ DESCRIPTION,
   "-map_metadata", "0"]

/-- `cmd_archive` of `process_single_file`: stream-copy when the lowered
codec contains `prores`, otherwise a ProRes transcode. -/
def cmd_archive (codec input_path archive_out : String) : List String :=
  if strContains codec "prores" then
    ["ffmpeg", "-n", "-i", input_path,
     "-c", "copy",
     "-map", "0"] ++ metadata_flags ++ [archive_out]
  else
    ["ffmpeg", "-n", "-i", input_path,
     "-c:v", "prores_ks", "-profile:v", "2", "-vendor", "apl0",
     "-bits_per_mb", "8000", "-pix_fmt", "yuv422p10le",
     "-c:a", "pcm_s16le", "-ar", "48000",
     "-map", "0"] ++ metadata_flags ++ [archive_out]

/-- The `is_interlaced` flag computed in the proxy branch of
`process_single_file`. -/
def is_interlaced (codec field_order : String) : Bool :=
  if strContains codec "dvvideo" || strContains codec "mpeg2video" then true
  else if strContains field_order "interlaced" || strContains field_order "bb"
          || strContains field_order "tt" then true
  else false

/-- `vf_filters` after the optional `insert(0, "yadif")`. -/
def vf_filters (codec field_order : String) : List String :=
  if is_interlaced codec field_order then ["yadif", "format=yuv420p"]
  else ["format=yuv420p"]

/-- `cmd_sharing` of `process_single_file`. -/
def cmd_sharing (codec field_order input_path sharing_out : String) : List String :=
  ["ffmpeg", "-n", "-i", input_path,
   "-c:v", "libx264", "-crf", "23", "-preset", "slow",
   "-vf", String.intercalate "," (vf_filters codec field_order),
   "-c:a", "aac", "-b:a", "192k", "-ar", "48000",
   "-movflags", "+faststart",
   "-map", "0:v", "-map", "0:a"] ++ metadata_flags ++ [sharing_out]

/-- `input_path` of `process_single_file`. -/
def inputPath (row : Row) : String := pathJoin row.directoryPath row.filename

/-- `archive_out` of `process_single_file`:
`<directory>/Masters/<base>_Master.mov`. -/
def archiveOutPath (row : Row) : String :=
  pathJoin (pathJoin row.directoryPath "Masters") (splitextBase row.filename ++ "_Master.mov")

/-- `sharing_out` of `process_single_file`:
`<directory>/Proxies/<base>_Share.mp4`. -/
def sharingOutPath (row : Row) : String :=
  pathJoin (pathJoin row.directoryPath "Proxies") (splitextBase row.filename ++ "_Share.mp4")

/-- Observable actions of one worker: an external invocation (with its
command and output path), a `print`, or a `log_error` message. -/
inductive Event where
  | invoked (cmd : List String) (outputFile : String)
  | printed (msg : String)
  | logged (msg : String)
deriving DecidableEq, Repr

/-- `PROCESSING_MODE == 1 or PROCESSING_MODE == 3`. -/
def masterEnabled (mode : Nat) : Bool := mode == 1 || mode == 3

/-- `PROCESSING_MODE == 2 or PROCESSING_MODE == 3`. -/
def proxyEnabled (mode : Nat) : Bool := mode == 2 || mode == 3

/-- The `1. MASTER ARCHIVE` section of `process_single_file`: given the disk
state `fs` at its start and the oracle for the master invocation, produce the
emitted events and the resulting disk state. -/
def masterStep (mode : Nat) (row : Row) (fs : FS) (beh : RunBehavior) (fsAfter : FS) :
    List Event × FS :=
  if masterEnabled mode then
    let archive_out := archiveOutPath row
    if fsExists fs archive_out then
      ([Event.printed ("  [SKIP] Master exists: " ++ row.filename)], fs)
    else
      let cmd := cmd_archive row.videoCodec.toLower (inputPath row) archive_out
      let out := run_ffmpeg_safe beh fsAfter archive_out
      (Event.invoked cmd archive_out :: out.logs.map Event.logged
         ++ (if out.success then [Event.printed ("  [DONE] Master: " ++ row.filename)] else [])
         ++ [Event.printed ("  [DONE] Master: " ++ row.filename)],
       out.fs)
  else ([], fs)

/-- The `2. PROXY SHARING` section of `process_single_file`. -/
def proxyStep (mode : Nat) (row : Row) (fs : FS) (beh : RunBehavior) (fsAfter : FS) :
    List Event × FS :=
  if proxyEnabled mode then
    let sharing_out := sharingOutPath row
    if fsExists fs sharing_out then
      ([Event.printed ("  [SKIP] Proxy exists:  " ++ row.filename)], fs)
    else
      let cmd := cmd_sharing row.videoCodec.toLower row.fieldOrder.toLower (inputPath row) sharing_out
      let out := run_ffmpeg_safe beh fsAfter sharing_out
      (Event.invoked cmd sharing_out :: out.logs.map Event.logged
         ++ (if out.success then [Event.printed ("  [DONE] Proxy:  " ++ row.filename)] else []),
       out.fs)
  else ([], fs)

/-- Environment of one `process_single_file` run: the initial disk state and
the oracle (exit behavior, observed disk state) of each potential
invocation. -/
structure World where
  fs : FS
  behM : RunBehavior
  fsAfterM : FS
  behP : RunBehavior
  fsAfterP : FS
deriving DecidableEq, Repr

/-- Result of `process_single_file`: the events in order, the final disk
state, and the returned string. -/
structure PResult where
  events : List Event
  fs : FS
  ret : String
deriving DecidableEq, Repr

/-- `process_single_file` of `convert_videos.py`. -/
def process_single_file (mode : Nat) (row : Row) (w : World) : PResult :=
  if fsExists w.fs (inputPath row) then
    let m := masterStep mode row w.fs w.behM w.fsAfterM
    let p := proxyStep mode row m.2 w.behP w.fsAfterP
    { events := m.1 ++ p.1, fs := p.2, ret := "COMPLETED: " ++ row.filename }
  else
    { events := [], fs := w.fs, ret := "SKIP: Missing file " ++ row.filename }

/-- The `cmd` built by `stamp_file` of `add_copyright_stamp.py`. -/
def stamp_cmd (filepath temp_path : String) : List String :=
  ["ffmpeg", "-n", "-i", filepath,
   "-c", "copy",
   "-map", "0",
   "-map_metadata", "0",
   "-metadata", "copyright=" ++ COPYRIGHT_HOLDER,
   "-metadata", "artist=" ++ PROJECT_NAME,
   "-metadata", "comment=" ++ DESCRIPTION,
   temp_path]

/-- What the stamping invocation did: exit code 0 (so `check=True` does not
raise) or a non-zero exit raising `CalledProcessError`; either way `fsAfter`
is the disk state it leaves behind. -/
inductive StampRun where
  | ok (fsAfter : FS)
  | fails (fsAfter : FS)
deriving DecidableEq, Repr

/-- Result of `stamp_file`: final disk state and printed messages. -/
structure StampResult where
  fs : FS
  msgs : List String
deriving DecidableEq, Repr

/-- The `temp_path` computed by `stamp_file` for a given `filepath`. -/
def tempPathOf (filepath : String) : String :=
  pathJoin (splitPath filepath).1 ("temp_" ++ (splitPath filepath).2)

/-- `stamp_file` of `add_copyright_stamp.py`.  `needs` is the boolean
returned by `needs_stamping` (an external `ffprobe` call); `run` is the
oracle for the `ffmpeg` invocation. -/
def stamp_file (needs : Bool) (run : StampRun) (fs : FS) (filepath : String) : StampResult :=
  if !needs then
    { fs := fs, msgs := ["  [OK] Already Stamped: " ++ basename filepath] }
  else
    let filename := (splitPath filepath).2
    let temp_path := tempPathOf filepath
    match run with
    | .ok fsAfter =>
        { fs := osReplace fsAfter temp_path filepath
          msgs := ["  > Stamping: " ++ filename, "  [DONE] Updated: " ++ filename] }
    | .fails fsAfter =>
        if fsExists fsAfter temp_path then
          { fs := fsRemove fsAfter temp_path
            msgs := ["  > Stamping: " ++ filename, "  [ERROR] Failed to stamp: " ++ filename] }
        else
          { fs := fsAfter
            msgs := ["  > Stamping: " ++ filename, "  [ERROR] Failed to stamp: " ++ filename] }

example : archiveOutPath ⟨"d", "f.mov", "DVVIDEO", "bb"⟩ = "d/Masters/f_Master.mov" := by decide

example : vf_filters "dvvideo" "progressive" = ["yadif", "format=yuv420p"] := by decide

example : vf_filters "h264" "progressive" = ["format=yuv420p"] := by decide

example : tempPathOf "a/b/c.mov" = "a/b/temp_c.mov" := by decide

example :
    (process_single_file 2 ⟨"d", "f.mov", "h264", "progressive"⟩
      { fs := [("d/f.mov", 9)], behM := .completes 0 "", fsAfterM := [],
        behP := .completes 0 "", fsAfterP := [("d/Proxies/f_Share.mp4", 5), ("d/f.mov", 9)] }).ret
      = "COMPLETED: f.mov" := by decide

/-- After removing a path, a lookup of that path fails. -/
theorem fsLookup_fsRemove_self (fs : FS) (p : String) : fsLookup (fsRemove fs p) p = none := by
  induction fs with
  | nil => rfl
  | cons e t ih =>
      obtain ⟨q, v⟩ := e
      by_cases h : q = p
      · simpa [fsRemove, List.filter_cons, h] using ih
      · simpa [fsRemove, List.filter_cons, h, fsLookup] using ih

/-- After removing a path, every other path is unaffected. -/
theorem fsLookup_fsRemove_ne (fs : FS) (q p : String) (h : q ≠ p) :
    fsLookup (fsRemove fs q) p = fsLookup fs p := by
  induction fs with
  | nil => rfl
  | cons e t ih =>
      obtain ⟨r, v⟩ := e
      by_cases hr : r = q
      · have hrp : ¬ (r = p) := fun hp => h (hr ▸ hp)
        rw [show fsRemove ((r, v) :: t) q = fsRemove t q by
              simp [fsRemove, List.filter_cons, hr]]
        rw [show fsLookup ((r, v) :: t) p = fsLookup t p by simp [fsLookup, hrp]]
        exact ih
      · rw [show fsRemove ((r, v) :: t) q = (r, v) :: fsRemove t q by
              simp [fsRemove, List.filter_cons, hr]]
        by_cases hrp : r = p
        · simp [fsLookup, hrp]
        · simp only [fsLookup, if_neg hrp]
          exact ih

/-- A removed path no longer exists. -/
theorem fsExists_fsRemove_self (fs : FS) (p : String) :
    fsExists (fsRemove fs p) p = false := by
  simp [fsExists, fsLookup_fsRemove_self]

/-- C3: For every invocation, the Process Invoker's verification applies its
checks in order: a non-zero exit status yields failure, logs the last 600
characters of the diagnostic stream and deletes the output path if it exists;
a zero exit status with the output missing yields failure with no deletion; a
zero exit status with an existing zero-byte output yields failure and deletes
the zero-byte file; otherwise it returns success (leaving the file in place
and logging nothing). -/
theorem invoker_verification_checks (rc : Int) (stderr : String) (fs : FS) (out : String) :
    (rc ≠ 0 →
       (run_ffmpeg_safe (.completes rc stderr) fs out).success = false
       ∧ ("   FFmpeg Error Log:\n" ++ strTail stderr 600 ++ "\n" ++ dashSep)
           ∈ (run_ffmpeg_safe (.completes rc stderr) fs out).logs
       ∧ (fsExists fs out = true →
            (run_ffmpeg_safe (.completes rc stderr) fs out).fs = fsRemove fs out)
       ∧ (fsExists fs out = false →
            (run_ffmpeg_safe (.completes rc stderr) fs out).fs = fs))
    ∧ (rc = 0 → fsExists fs out = false →
        (run_ffmpeg_safe (.completes rc stderr) fs out).success = false
        ∧ (run_ffmpeg_safe (.completes rc stderr) fs out).fs = fs)
    ∧ (rc = 0 → fsExists fs out = true → fsSize fs out = 0 →
        (run_ffmpeg_safe (.completes rc stderr) fs out).success = false
        ∧ (run_ffmpeg_safe (.completes rc stderr) fs out).fs = fsRemove fs out)
    ∧ (rc = 0 → fsExists fs out = true → fsSize fs out ≠ 0 →
        (run_ffmpeg_safe (.completes rc stderr) fs out).success = true
        ∧ (run_ffmpeg_safe (.completes rc stderr) fs out).fs = fs
        ∧ (run_ffmpeg_safe (.completes rc stderr) fs out).logs = []) := by
  refine ⟨?_, ?_, ?_, ?_⟩
  · intro h
    cases he : fsExists fs out <;> simp [run_ffmpeg_safe, h, he]
  · intro h he
    simp [run_ffmpeg_safe, h, he]
  · intro h he hz
    simp [run_ffmpeg_safe, h, he, hz]
  · intro h he hz
    simp [run_ffmpeg_safe, h, he, hz]

/-- Closed witness for `invoker_verification_checks`, one conjunct per
verification check at concrete inputs. -/
theorem invoker_verification_checks_witness :
    ((run_ffmpeg_safe (.completes 1 "boom") [("o", 3)] "o").success = false
       ∧ ("   FFmpeg Error Log:\n" ++ strTail "boom" 600 ++ "\n" ++ dashSep)
           ∈ (run_ffmpeg_safe (.completes 1 "boom") [("o", 3)] "o").logs)
    ∧ (run_ffmpeg_safe (.completes 0 "") [] "o").success = false
    ∧ (run_ffmpeg_safe (.completes 0 "") [("o", 0)] "o").success = false
    ∧ (run_ffmpeg_safe (.completes 0 "") [("o", 9)] "o").success = true :=
  ⟨⟨((invoker_verification_checks 1 "boom" [("o", 3)] "o").1 (by decide)).1,
    ((invoker_verification_checks 1 "boom" [("o", 3)] "o").1 (by decide)).2.1⟩,
   ((invoker_verification_checks 0 "" [] "o").2.1 rfl (by decide)).1,
   ((invoker_verification_checks 0 "" [("o", 0)] "o").2.2.1 rfl (by decide) (by decide)).1,
   ((invoker_verification_checks 0 "" [("o", 9)] "o").2.2.2 rfl (by decide) (by decide)).1⟩

/-- C5: An exception raised while running the external tool is caught inside
the Process Invoker: a message carrying the exception text is logged, the
invoker returns failure and touches no file, and the worker still runs to
completion (its `process_single_file` returns the normal `COMPLETED` value
whatever the invocation oracles do). -/
theorem invoker_exception_contained (msg : String) (fs : FS) (out : String)
    (mode : Nat) (row : Row) (w : World)
    (hin : fsExists w.fs (inputPath row) = true) :
    (run_ffmpeg_safe (.raises msg) fs out).success = false
    ∧ (run_ffmpeg_safe (.raises msg) fs out).logs
        = ["\n🔥 [EXCEPTION] Python script error on " ++ out ++ ": " ++ msg]
    ∧ (run_ffmpeg_safe (.raises msg) fs out).fs = fs
    ∧ (process_single_file mode row w).ret = "COMPLETED: " ++ row.filename := by
  refine ⟨rfl, rfl, rfl, ?_⟩
  simp [process_single_file, hin]

/-- Closed witness for `invoker_exception_contained` at a concrete missing
binary. -/
theorem invoker_exception_contained_witness :
    (run_ffmpeg_safe (.raises "No such file or directory") [] "o").success = false
    ∧ (run_ffmpeg_safe (.raises "No such file or directory") [] "o").logs
        = ["\n🔥 [EXCEPTION] Python script error on " ++ "o" ++ ": "
            ++ "No such file or directory"]
    ∧ (run_ffmpeg_safe (.raises "No such file or directory") [] "o").fs = []
    ∧ (process_single_file 3 ⟨"d", "f.mov", "h264", "progressive"⟩
        { fs := [("d/f.mov", 9)], behM := .raises "No such file or directory", fsAfterM := [],
          behP := .raises "No such file or directory", fsAfterP := [] }).ret
        = "COMPLETED: " ++ "f.mov" :=
  invoker_exception_contained "No such file or directory" [] "o" 3
    ⟨"d", "f.mov", "h264", "progressive"⟩
    { fs := [("d/f.mov", 9)], behM := .raises "No such file or directory", fsAfterM := [],
      behP := .raises "No such file or directory", fsAfterP := [] }
    (by decide)

/-- C9 counterexample: a failing invocation (exit code 1, no output file on
disk) produces three log entries, not exactly one. -/
theorem failing_invocation_not_one_log :
    ¬ ((run_ffmpeg_safe (.completes 1 "boom") [] "out.mov").logs.length = 1) := by decide

/-- C9 amended: for every invocation failing with a non-zero exit status, no
output file remains at the task's output path after verification, and the
failure produces exactly three log entries — four when a partial output file
existed and was deleted. -/
theorem failing_invocation_cleanup (rc : Int) (stderr : String) (fs : FS) (out : String)
    (h : rc ≠ 0) :
    fsExists (run_ffmpeg_safe (.completes rc stderr) fs out).fs out = false
    ∧ (run_ffmpeg_safe (.completes rc stderr) fs out).logs.length
        = (if fsExists fs out then 4 else 3) := by
  cases he : fsExists fs out <;>
    simp [run_ffmpeg_safe, h, he, fsExists_fsRemove_self]

/-- Closed witness for `failing_invocation_cleanup`: exit code 1 with a
partial output file present. -/
theorem failing_invocation_cleanup_witness :
    fsExists (run_ffmpeg_safe (.completes 1 "boom") [("out.mov", 7)] "out.mov").fs "out.mov"
        = false
    ∧ (run_ffmpeg_safe (.completes 1 "boom") [("out.mov", 7)] "out.mov").logs.length
        = (if fsExists [("out.mov", 7)] "out.mov" then 4 else 3) :=
  failing_invocation_cleanup 1 "boom" [("out.mov", 7)] "out.mov" (by decide)

/-- C6: every constructed external command — Master (both codec branches),
Proxy, and the metadata-stamping command — carries the never-overwrite flag
`-n`. -/
theorem never_overwrite_flag (codec field_order input out filepath temp : String) :
    "-n" ∈ cmd_archive codec input out
    ∧ "-n" ∈ cmd_sharing codec field_order input out
    ∧ "-n" ∈ stamp_cmd filepath temp := by
  refine ⟨?_, ?_, ?_⟩
  · unfold cmd_archive
    split <;> simp
  · simp [cmd_sharing]
  · simp [stamp_cmd]

/-- Any adjacent pair of `metadata_flags` is an adjacent pair of any command
of the form `l ++ metadata_flags ++ [out]`. -/
theorem pair_in_metadata_command (l : List String) (out x y : String)
    (h : [x, y] <:+: metadata_flags) : [x, y] <:+: l ++ metadata_flags ++ [out] :=
  h.trans (List.infix_append l metadata_flags [out])

/-- C7: every derivative-task command (Master in both codec branches, and
Proxy) carries the MetadataStamp key/value fields for copyright, artist and
comment, and the `-map_metadata 0` directive carrying over source-container
metadata. -/
theorem metadata_stamp_in_every_task (codec field_order input out : String) :
    (["-metadata", "copyright=" ++ COPYRIGHT_HOLDER] <:+: cmd_archive codec input out)
    ∧ (["-metadata", "artist=" ++ PROJECT_NAME] <:+: cmd_archive codec input out)
    ∧ (["-metadata", "comment=" ++ DESCRIPTION] <:+: cmd_archive codec input out)
    ∧ (["-map_metadata", "0"] <:+: cmd_archive codec input out)
    ∧ (["-metadata", "copyright=" ++ COPYRIGHT_HOLDER] <:+: cmd_sharing codec field_order input out)
    ∧ (["-metadata", "artist=" ++ PROJECT_NAME] <:+: cmd_sharing codec field_order input out)
    ∧ (["-metadata", "comment=" ++ DESCRIPTION] <:+: cmd_sharing codec field_order input out)
    ∧ (["-map_metadata", "0"] <:+: cmd_sharing codec field_order input out) := by
  refine ⟨?_, ?_, ?_, ?_, ?_, ?_, ?_, ?_⟩ <;>
    first
      | (unfold cmd_archive
         split <;> exact pair_in_metadata_command _ _ _ _ (by decide))
      | exact pair_in_metadata_command _ _ _ _ (by decide)

/-- C1: when the Master task is enabled and its output does not yet exist,
the issued command is `cmd_archive`; that command is the stream-copy command
(`-c copy`, `-map 0`) exactly when the lowercased codec contains `prores`,
and otherwise is the re-encode command (`prores_ks`, `yuv422p10le`,
`pcm_s16le` at 48000 Hz) and differs from the stream-copy command. -/
theorem master_command_strategy (mode : Nat) (row : Row) (fs : FS)
    (beh : RunBehavior) (fsAfter : FS)
    (hm : masterEnabled mode = true)
    (hnew : fsExists fs (archiveOutPath row) = false) :
    (masterStep mode row fs beh fsAfter).1.head?
      = some (Event.invoked
          (cmd_archive row.videoCodec.toLower (inputPath row) (archiveOutPath row))
          (archiveOutPath row))
    ∧ (strContains row.videoCodec.toLower "prores" = true →
        cmd_archive row.videoCodec.toLower (inputPath row) (archiveOutPath row)
          = ["ffmpeg", "-n", "-i", inputPath row, "-c", "copy", "-map", "0"]
              ++ metadata_flags ++ [archiveOutPath row])
    ∧ (strContains row.videoCodec.toLower "prores" = false →
        cmd_archive row.videoCodec.toLower (inputPath row) (archiveOutPath row)
          = ["ffmpeg", "-n", "-i", inputPath row,
             "-c:v", "prores_ks", "-profile:v", "2", "-vendor", "apl0",
             "-bits_per_mb", "8000", "-pix_fmt", "yuv422p10le",
             "-c:a", "pcm_s16le", "-ar", "48000",
             "-map", "0"] ++ metadata_flags ++ [archiveOutPath row]
        ∧ cmd_archive row.videoCodec.toLower (inputPath row) (archiveOutPath row)
            ≠ ["ffmpeg", "-n", "-i", inputPath row, "-c", "copy", "-map", "0"]
                ++ metadata_flags ++ [archiveOutPath row]) := by
  refine ⟨?_, ?_, ?_⟩
  · simp [masterStep, hm, hnew]
  · intro h
    simp [cmd_archive, h]
  · intro h
    refine ⟨by simp [cmd_archive, h], ?_⟩
    simp [cmd_archive, h, metadata_flags]

/-- Closed witness for `master_command_strategy`: a `dvvideo` source with the
Master output absent. -/
theorem master_command_strategy_witness :
    (masterStep 1 ⟨"d", "f.mov", "dvvideo", "bb"⟩ [("d/f.mov", 9)]
        (.completes 0 "") []).1.head?
      = some (Event.invoked
          (cmd_archive (Row.videoCodec ⟨"d", "f.mov", "dvvideo", "bb"⟩).toLower
            (inputPath ⟨"d", "f.mov", "dvvideo", "bb"⟩)
            (archiveOutPath ⟨"d", "f.mov", "dvvideo", "bb"⟩))
          (archiveOutPath ⟨"d", "f.mov", "dvvideo", "bb"⟩)) :=
  (master_command_strategy 1 ⟨"d", "f.mov", "dvvideo", "bb"⟩ [("d/f.mov", 9)]
    (.completes 0 "") [] (by decide) (by decide)).1

/-- C2: when the Proxy task is enabled and its output does not yet exist, the
issued command is `cmd_sharing`; its filter chain is `yadif,format=yuv420p`
(deinterlace before pixel-format normalization) exactly when the lowercased
codec contains `dvvideo` or `mpeg2video` or the lowercased field order
contains `interlaced`, `bb` or `tt`, and contains no deinterlace filter
otherwise. -/
theorem proxy_deinterlace_filter (mode : Nat) (row : Row) (fs : FS)
    (beh : RunBehavior) (fsAfter : FS)
    (hp : proxyEnabled mode = true)
    (hnew : fsExists fs (sharingOutPath row) = false) :
    (proxyStep mode row fs beh fsAfter).1.head?
      = some (Event.invoked
          (cmd_sharing row.videoCodec.toLower row.fieldOrder.toLower (inputPath row)
            (sharingOutPath row))
          (sharingOutPath row))
    ∧ ((strContains row.videoCodec.toLower "dvvideo"
          || strContains row.videoCodec.toLower "mpeg2video"
          || strContains row.fieldOrder.toLower "interlaced"
          || strContains row.fieldOrder.toLower "bb"
          || strContains row.fieldOrder.toLower "tt") = true →
        vf_filters row.videoCodec.toLower row.fieldOrder.toLower = ["yadif", "format=yuv420p"]
        ∧ String.intercalate "," (vf_filters row.videoCodec.toLower row.fieldOrder.toLower)
            = "yadif,format=yuv420p")
    ∧ ((strContains row.videoCodec.toLower "dvvideo"
          || strContains row.videoCodec.toLower "mpeg2video"
          || strContains row.fieldOrder.toLower "interlaced"
          || strContains row.fieldOrder.toLower "bb"
          || strContains row.fieldOrder.toLower "tt") = false →
        vf_filters row.videoCodec.toLower row.fieldOrder.toLower = ["format=yuv420p"]
        ∧ "yadif" ∉ vf_filters row.videoCodec.toLower row.fieldOrder.toLower) := by
  refine ⟨?_, ?_, ?_⟩
  · simp [proxyStep, hp, hnew]
  · intro h
    have hi : is_interlaced row.videoCodec.toLower row.fieldOrder.toLower = true := by
      simp only [Bool.or_eq_true] at h
      unfold is_interlaced
      rcases h with ((((h | h) | h) | h) | h) <;> simp [h]
    refine ⟨by simp [vf_filters, hi], ?_⟩
    rw [show vf_filters row.videoCodec.toLower row.fieldOrder.toLower
          = ["yadif", "format=yuv420p"] by simp [vf_filters, hi]]
    decide
  · intro h
    have hi : is_interlaced row.videoCodec.toLower row.fieldOrder.toLower = false := by
      simp only [Bool.or_eq_false_iff] at h
      obtain ⟨⟨⟨⟨h1, h2⟩, h3⟩, h4⟩, h5⟩ := h
      unfold is_interlaced
      simp [h1, h2, h3, h4, h5]
    exact ⟨by simp [vf_filters, hi], by simp [vf_filters, hi]⟩

/-- Closed witness for `proxy_deinterlace_filter`: a progressive `h264`
source with the Proxy output absent. -/
theorem proxy_deinterlace_filter_witness :
    (proxyStep 2 ⟨"d", "f.mov", "h264", "progressive"⟩ [("d/f.mov", 9)]
        (.completes 0 "") []).1.head?
      = some (Event.invoked
          (cmd_sharing (Row.videoCodec ⟨"d", "f.mov", "h264", "progressive"⟩).toLower
            (Row.fieldOrder ⟨"d", "f.mov", "h264", "progressive"⟩).toLower
            (inputPath ⟨"d", "f.mov", "h264", "progressive"⟩)
            (sharingOutPath ⟨"d", "f.mov", "h264", "progressive"⟩))
          (sharingOutPath ⟨"d", "f.mov", "h264", "progressive"⟩)) :=
  (proxy_deinterlace_filter 2 ⟨"d", "f.mov", "h264", "progressive"⟩ [("d/f.mov", 9)]
    (.completes 0 "") [] (by decide) (by decide)).1

/-- C4: for either enabled task, when the planned output path already exists
at the moment the task is considered, the task issues no external invocation
and leaves the filesystem exactly as it was. -/
theorem existing_output_skips_task (mode : Nat) (row : Row) (fs : FS)
    (behM : RunBehavior) (fsAfterM : FS) (behP : RunBehavior) (fsAfterP : FS) :
    (fsExists fs (archiveOutPath row) = true →
       (masterStep mode row fs behM fsAfterM).2 = fs
       ∧ ∀ cmd p, Event.invoked cmd p ∉ (masterStep mode row fs behM fsAfterM).1)
    ∧ (fsExists fs (sharingOutPath row) = true →
       (proxyStep mode row fs behP fsAfterP).2 = fs
       ∧ ∀ cmd p, Event.invoked cmd p ∉ (proxyStep mode row fs behP fsAfterP).1) := by
  constructor
  · intro h
    unfold masterStep
    cases hm : masterEnabled mode <;> simp [hm, h]
  · intro h
    unfold proxyStep
    cases hp : proxyEnabled mode <;> simp [hp, h]

/-- Closed witness for `existing_output_skips_task`: both outputs already on
disk, mode `Both`. -/
theorem existing_output_skips_task_witness :
    (masterStep 3 ⟨"d", "f.mov", "h264", "tt"⟩
        [("d/Masters/f_Master.mov", 4), ("d/Proxies/f_Share.mp4", 4)]
        (.completes 0 "") []).2
      = [("d/Masters/f_Master.mov", 4), ("d/Proxies/f_Share.mp4", 4)]
    ∧ (proxyStep 3 ⟨"d", "f.mov", "h264", "tt"⟩
        [("d/Masters/f_Master.mov", 4), ("d/Proxies/f_Share.mp4", 4)]
        (.completes 0 "") []).2
      = [("d/Masters/f_Master.mov", 4), ("d/Proxies/f_Share.mp4", 4)] :=
  ⟨((existing_output_skips_task 3 ⟨"d", "f.mov", "h264", "tt"⟩
      [("d/Masters/f_Master.mov", 4), ("d/Proxies/f_Share.mp4", 4)]
      (.completes 0 "") [] (.completes 0 "") []).1 (by decide)).1,
   ((existing_output_skips_task 3 ⟨"d", "f.mov", "h264", "tt"⟩
      [("d/Masters/f_Master.mov", 4), ("d/Proxies/f_Share.mp4", 4)]
      (.completes 0 "") [] (.completes 0 "") []).2 (by decide)).1⟩

/-- C8: there is a code path on which the Master invocation's verification
reports failure and the success line `[DONE] Master` is still printed: the
trailing print of the Master branch is unconditional. -/
theorem done_master_printed_despite_failure :
    (run_ffmpeg_safe (RunBehavior.completes 1 "boom") []
        (archiveOutPath ⟨"d", "f.mov", "dvvideo", "bb"⟩)).success = false
    ∧ Event.printed ("  [DONE] Master: " ++ "f.mov")
        ∈ (process_single_file 1 ⟨"d", "f.mov", "dvvideo", "bb"⟩
            { fs := [("d/f.mov", 1)], behM := .completes 1 "boom", fsAfterM := [],
              behP := .completes 1 "boom", fsAfterP := [] }).events := by decide

/-- Building a string from a character list and reading it back is the
identity. -/
theorem data_mk (l : List Char) : (String.mk l).data = l := rfl

/-- The characters of `"temp_" ++ s`. -/
theorem toList_temp (s : String) :
    ("temp_" ++ s).toList = 't' :: 'e' :: 'm' :: 'p' :: '_' :: s.toList := rfl

/-- The index returned by `rlastIdx` points at the sought character. -/
theorem rlastIdx_getElem {c : Char} {cs : List Char} {i : Nat}
    (h : rlastIdx c cs = some i) : cs[i]? = some c := by
  induction cs generalizing i with
  | nil => simp [rlastIdx] at h
  | cons a t ih =>
      unfold rlastIdx at h
      cases ht : rlastIdx c t with
      | some j =>
          rw [ht] at h
          simp only [Option.some.injEq] at h
          subst h
          simpa using ih ht
      | none =>
          rw [ht] at h
          by_cases ha : a = c
          · rw [if_pos ha] at h
            simp only [Option.some.injEq] at h
            subst h
            simp [ha]
          · rw [if_neg ha] at h
            cases h

/-- `stripTrailing` decomposition: the original list is the stripped part
followed by a run of the stripped character. -/
theorem stripTrailing_decomp (c : Char) (cs : List Char) :
    ∃ k, cs = stripTrailing c cs ++ List.replicate k c := by
  refine ⟨(cs.reverse.takeWhile (fun a => a == c)).length, ?_⟩
  have htake : cs.reverse.takeWhile (fun a => a == c)
      = List.replicate (cs.reverse.takeWhile (fun a => a == c)).length c :=
    List.eq_replicate_iff.mpr
      ⟨rfl, fun b hb => by simpa using List.mem_takeWhile_imp hb⟩
  calc cs = cs.reverse.reverse := (List.reverse_reverse cs).symm
    _ = (cs.reverse.takeWhile (fun a => a == c)
          ++ cs.reverse.dropWhile (fun a => a == c)).reverse := by
        rw [List.takeWhile_append_dropWhile]
    _ = stripTrailing c cs
          ++ List.replicate (cs.reverse.takeWhile (fun a => a == c)).length c := by
        rw [List.reverse_append, stripTrailing]
        congr 1
        conv_lhs => rw [htake]
        rw [List.reverse_replicate]

/-- A stripped list does not end in the stripped character. -/
theorem stripTrailing_not_end (c : Char) (cs : List Char) :
    (stripTrailing c cs).getLast? ≠ some c := by
  unfold stripTrailing
  rw [List.getLast?_reverse]
  have h := List.head?_dropWhile_not (fun a => a == c) cs.reverse
  cases hh : (cs.reverse.dropWhile (fun a => a == c)).head? with
  | none => simp
  | some x =>
      rw [hh] at h
      have hx : (x == c) = false := h
      intro hcon
      simp only [Option.some.injEq] at hcon
      subst hcon
      simp at hx

/-- Stripping a list that is not made only of the stripped character leaves
it nonempty. -/
theorem stripTrailing_ne_nil (c : Char) (cs : List Char)
    (h : cs.all (fun a => a == c) = false) : stripTrailing c cs ≠ [] := by
  intro h0
  obtain ⟨k, hk⟩ := stripTrailing_decomp c cs
  rw [h0, List.nil_append] at hk
  have hall : cs.all (fun a => a == c) = true := by
    rw [hk]
    simp [List.all_eq_true, List.mem_replicate]
  rw [hall] at h
  cases h

/-- The temporary path built by `stamp_file` never coincides with the
original path: `temp_` is inserted in front of the final component. -/
theorem tempPathOf_ne (p : String) : tempPathOf p ≠ p := by
  cases hr : rlastIdx '/' p.toList with
  | none =>
      have h1 : (splitPath p).1 = "" := by
        unfold splitPath
        rw [hr]
      have h2 : (splitPath p).2 = p := by
        unfold splitPath
        rw [hr]
      unfold tempPathOf
      rw [h1, h2]
      intro heq
      have hO : ¬ (("temp_" ++ p).toList.head? = some '/') := by
        rw [toList_temp]; simp
      rw [pathJoin, if_neg hO, if_pos (Or.inl rfl)] at heq
      have hlen := congrArg String.length heq
      rw [String.length_append, String.length_append,
          show ("" : String).length = 0 from rfl,
          show ("temp_" : String).length = 5 from rfl] at hlen
      omega
  | some i =>
      have hget : p.toList[i]? = some '/' := rlastIdx_getElem hr
      have hhead : p.toList.take (i + 1) = p.toList.take i ++ ['/'] := by
        rw [List.take_succ, hget]
        rfl
      have hie : (p.toList.take (i + 1)).isEmpty = false := by
        rw [hhead]
        simp
      have hc1 : (splitPath p).1 = String.mk (splitHead (p.toList.take (i + 1))) := by
        unfold splitPath
        rw [hr]
      have hc2p : (splitPath p).2 = String.mk (p.toList.drop (i + 1)) := by
        unfold splitPath
        rw [hr]
      have hsplit : p.toList.take (i + 1) ++ p.toList.drop (i + 1) = p.toList :=
        List.take_append_drop _ _
      unfold tempPathOf
      rw [hc1, hc2p]
      by_cases hall : (p.toList.take (i + 1)).all (fun a => a == '/') = true
      · have hsh : splitHead (p.toList.take (i + 1)) = p.toList.take (i + 1) := by
          unfold splitHead
          rw [hie, hall]
          simp
        rw [hsh]
        intro heq
        have hO : ¬ (("temp_" ++ String.mk (p.toList.drop (i + 1))).toList.head?
            = some '/') := by
          rw [toList_temp]; simp
        have hlast : (String.mk (p.toList.take (i + 1))).toList.getLast? = some '/' := by
          show (p.toList.take (i + 1)).getLast? = some '/'
          rw [hhead]
          exact List.getLast?_concat _
        rw [pathJoin, if_neg hO, if_pos (Or.inr hlast)] at heq
        have hdata : p.toList.take (i + 1)
            ++ ('t' :: 'e' :: 'm' :: 'p' :: '_' :: p.toList.drop (i + 1)) = p.toList :=
          congrArg String.data heq
        have hdata2 : p.toList.take (i + 1)
            ++ ('t' :: 'e' :: 'm' :: 'p' :: '_' :: p.toList.drop (i + 1))
            = p.toList.take (i + 1) ++ p.toList.drop (i + 1) := by
          rw [hsplit]
          exact hdata
        have hcan := List.append_cancel_left hdata2
        have hlen := congrArg List.length hcan
        simp only [List.length_cons] at hlen
        omega
      · have hallf : (p.toList.take (i + 1)).all (fun a => a == '/') = false :=
          Bool.eq_false_iff.mpr hall
        have hsh : splitHead (p.toList.take (i + 1))
            = stripTrailing '/' (p.toList.take (i + 1)) := by
          unfold splitHead
          rw [hie, hallf]
          simp
        rw [hsh]
        intro heq
        obtain ⟨k, hk⟩ := stripTrailing_decomp '/' (p.toList.take (i + 1))
        have hnn : stripTrailing '/' (p.toList.take (i + 1)) ≠ [] :=
          stripTrailing_ne_nil _ _ hallf
        have hnl : (stripTrailing '/' (p.toList.take (i + 1))).getLast? ≠ some '/' :=
          stripTrailing_not_end _ _
        have hO : ¬ (("temp_" ++ String.mk (p.toList.drop (i + 1))).toList.head?
            = some '/') := by
          rw [toList_temp]; simp
        have hc2 : ¬ (String.mk (stripTrailing '/' (p.toList.take (i + 1))) = ""
            ∨ (String.mk (stripTrailing '/' (p.toList.take (i + 1)))).toList.getLast?
                = some '/') := by
          rintro (h | h)
          · exact hnn (congrArg String.data h)
          · exact hnl h
        rw [pathJoin, if_neg hO, if_neg hc2] at heq
        have hdata : (stripTrailing '/' (p.toList.take (i + 1)) ++ ['/'])
            ++ ('t' :: 'e' :: 'm' :: 'p' :: '_' :: p.toList.drop (i + 1))
            = p.toList := congrArg String.data heq
        have hP : (stripTrailing '/' (p.toList.take (i + 1)) ++ List.replicate k '/')
            ++ p.toList.drop (i + 1) = p.toList := by
          rw [← hk]
          exact hsplit
        have hdata2 : (stripTrailing '/' (p.toList.take (i + 1)) ++ ['/'])
            ++ ('t' :: 'e' :: 'm' :: 'p' :: '_' :: p.toList.drop (i + 1))
            = (stripTrailing '/' (p.toList.take (i + 1)) ++ List.replicate k '/')
              ++ p.toList.drop (i + 1) := by
          rw [hP]
          exact hdata
        rw [List.append_assoc, List.append_assoc] at hdata2
        have h1 := List.append_cancel_left hdata2
        have h1' : (['/', 't', 'e', 'm', 'p', '_'] : List Char) ++ p.toList.drop (i + 1)
            = List.replicate k '/' ++ p.toList.drop (i + 1) := h1
        have h2 := List.append_cancel_right h1'
        have hlen := congrArg List.length h2
        simp at hlen
        subst hlen
        exact absurd h2 (by decide)

/-- C10: the metadata-stamping collaborator replaces the original file only
when the stamping process exits successfully; when the process fails with a
non-zero exit status, the original file is left unchanged and the temporary
output file, if it exists, is deleted.  `hpres` states that the external tool
writes only the temporary path, never the original. -/
theorem stamp_file_atomic (fs fsAfter : FS) (filepath : String)
    (hpres : fsLookup fsAfter filepath = fsLookup fs filepath) :
    (fsLookup (stamp_file true (.fails fsAfter) fs filepath).fs filepath
        = fsLookup fs filepath
     ∧ fsExists (stamp_file true (.fails fsAfter) fs filepath).fs (tempPathOf filepath)
        = false)
    ∧ (∀ v, fsLookup fsAfter (tempPathOf filepath) = some v →
        fsLookup (stamp_file true (.ok fsAfter) fs filepath).fs filepath = some v
        ∧ fsExists (stamp_file true (.ok fsAfter) fs filepath).fs (tempPathOf filepath)
            = false) := by
  have hne : tempPathOf filepath ≠ filepath := tempPathOf_ne filepath
  have hne2 : filepath ≠ tempPathOf filepath := fun h => hne h.symm
  constructor
  · cases he : fsExists fsAfter (tempPathOf filepath) with
    | true =>
        have hfs : (stamp_file true (.fails fsAfter) fs filepath).fs
            = fsRemove fsAfter (tempPathOf filepath) := by
          simp [stamp_file, he]
        refine ⟨?_, ?_⟩
        · rw [hfs, fsLookup_fsRemove_ne _ _ _ hne]
          exact hpres
        · rw [hfs]
          exact fsExists_fsRemove_self _ _
    | false =>
        have hfs : (stamp_file true (.fails fsAfter) fs filepath).fs = fsAfter := by
          simp [stamp_file, he]
        refine ⟨?_, ?_⟩
        · rw [hfs]
          exact hpres
        · rw [hfs]
          exact he
  · intro v hv
    have hfs : (stamp_file true (.ok fsAfter) fs filepath).fs
        = fsSet (fsRemove fsAfter (tempPathOf filepath)) filepath v := by
      simp [stamp_file, osReplace, hv]
    have hx : fsLookup (fsRemove (fsRemove fsAfter (tempPathOf filepath)) filepath)
        (tempPathOf filepath) = none := by
      rw [fsLookup_fsRemove_ne _ _ _ hne2]
      exact fsLookup_fsRemove_self _ _
    refine ⟨?_, ?_⟩
    · rw [hfs]
      simp [fsSet, fsLookup]
    · rw [hfs]
      simp [fsSet, fsLookup, hne2, hx, fsExists]

/-- Closed witness for `stamp_file_atomic`: a Master file being stamped, the
temporary copy present on disk. -/
theorem stamp_file_atomic_witness :
    (fsLookup (stamp_file true (.fails [("a/temp_b.mov", 3), ("a/b.mov", 9)])
        [("a/b.mov", 9)] "a/b.mov").fs "a/b.mov" = fsLookup [("a/b.mov", 9)] "a/b.mov"
     ∧ fsExists (stamp_file true (.fails [("a/temp_b.mov", 3), ("a/b.mov", 9)])
        [("a/b.mov", 9)] "a/b.mov").fs (tempPathOf "a/b.mov") = false)
    ∧ (fsLookup (stamp_file true (.ok [("a/temp_b.mov", 3), ("a/b.mov", 9)])
        [("a/b.mov", 9)] "a/b.mov").fs "a/b.mov" = some 3
       ∧ fsExists (stamp_file true (.ok [("a/temp_b.mov", 3), ("a/b.mov", 9)])
        [("a/b.mov", 9)] "a/b.mov").fs (tempPathOf "a/b.mov") = false) :=
  ⟨(stamp_file_atomic [("a/b.mov", 9)] [("a/temp_b.mov", 3), ("a/b.mov", 9)]
      "a/b.mov" (by decide)).1,
   (stamp_file_atomic [("a/b.mov", 9)] [("a/temp_b.mov", 3), ("a/b.mov", 9)]
      "a/b.mov" (by decide)).2 3 (by decide)⟩
